import Mathlib

/-!
Shallow embedding of `src/cloudbridge/cloud/providers/gce/helpers.py`:
GCE common-instance-metadata helpers built on a fingerprint-conflict
retry policy (`tenacity.retry` with `stop_after_attempt(10)`,
`retry_if_exception(__if_fingerprint_differs)`, `reraise=True`).

Modelling choices:
* A metadata document is a dict that may or may not carry an `items`
  key; `items` is a list of `{key, value}` dicts.  We model it as
  `Metadata` with `items : Option (List Item)` (`none` = the `items`
  key is absent from the dict).
* Python exceptions become an explicit error type `GceError`:
  `httpError content` for `googleapiclient.errors.HttpError` (with its
  `content` rendered as a string, as the source does via `str(e.content)`),
  `transportError` for any other exception coming out of the HTTP layer,
  and `providerInternal` for `ProviderInternalException` raised locally.
* The remote store is an oracle `env : Nat → AttemptEnv` giving, for each
  attempt number, the document the fetch returns and the outcome of the
  commit.  Executions record a trace of `OpEvent`s (fetches, callback
  invocations, commits) so that call counts and "which document was the
  callback given" are observable.
* `tenacity.wait_exponential` only affects timing and is not modelled.
-/

namespace CloudBridge

/-- One `{key, value}` entry of a metadata document's `items` list. -/
structure Item where
  key : String
  value : String
deriving DecidableEq, Repr

/-- A metadata document: the `items` dict key may be absent (`none`). -/
structure Metadata where
  items : Option (List Item)
deriving DecidableEq, Repr

/-- Python's `needle in haystack` on strings, over character lists:
true iff `needle` occurs as a contiguous substring of `haystack`. -/
def containsSub (needle : List Char) : List Char → Bool
  | [] => needle.isEmpty
  | c :: rest => needle.isPrefixOf (c :: rest) || containsSub needle rest

/-- Errors an attempt can raise. -/
inductive GceError where
  /-- `googleapiclient.errors.HttpError`; `content` is `str(e.content)`. -/
  | httpError (content : String)
  /-- any non-`HttpError` exception from the transport layer -/
  | transportError (msg : String)
  /-- `cloudbridge...ProviderInternalException`, raised locally -/
  | providerInternal (msg : String)
deriving DecidableEq, Repr

/-- The fingerprint-conflict message tested by `__if_fingerprint_differs`
(the source concatenates two adjacent string literals). -/
def expected_message : String :=
  "Supplied fingerprint does not match current metadata fingerprint."

/-- `__if_fingerprint_differs(e)`: true iff `e` is an `HttpError` whose
content contains the fingerprint-mismatch message. -/
def if_fingerprint_differs : GceError → Bool
  | .httpError content => containsSub expected_message.data content.data
  | .transportError _ => false
  | .providerInternal _ => false

/-- What the remote store does on one attempt: the document returned by
`get_common_metadata` and the outcome of `setCommonInstanceMetadata`
(`none` = success, `some e` = the commit raises `e`). -/
structure AttemptEnv where
  fetched : Metadata
  commitResult : Option GceError
deriving Repr

/-- Observable events of an execution. -/
inductive OpEvent where
  /-- `get_common_metadata` returned this document -/
  | fetch (d : Metadata)
  /-- the mutation callback was invoked on this document -/
  | callbackCall (d : Metadata)
  /-- `setCommonInstanceMetadata` was invoked with this document as body -/
  | commit (d : Metadata)
deriving DecidableEq, Repr

def countFetches (tr : List OpEvent) : Nat :=
  tr.countP (fun ev => match ev with | .fetch _ => true | _ => false)

def countCallbacks (tr : List OpEvent) : Nat :=
  tr.countP (fun ev => match ev with | .callbackCall _ => true | _ => false)

def countCommits (tr : List OpEvent) : Nat :=
  tr.countP (fun ev => match ev with | .commit _ => true | _ => false)

/-- One attempt of `_save_common_metadata`: fetch the latest metadata,
run the callback on it (which may raise), then commit the (callback-
mutated) document.  Returns the trace of the attempt and its outcome. -/
def runAttempt (cb : Metadata → Except GceError Metadata) (env : AttemptEnv) :
    List OpEvent × Except GceError Unit :=
  let d := env.fetched
  match cb d with
  | .error e => ([.fetch d, .callbackCall d], .error e)
  | .ok d' =>
    match env.commitResult with
    | some e => ([.fetch d, .callbackCall d, .commit d'], .error e)
    | none => ([.fetch d, .callbackCall d, .commit d'], .ok ())

/-- The tenacity loop around `_save_common_metadata`, with `retriesLeft`
retries remaining after the current attempt (attempt index `i` feeds the
environment oracle).  On an error `e`: if `__if_fingerprint_differs(e)`
holds and retries remain, retry; otherwise raise `e` itself (the
`reraise=True` setting re-raises the last error when the attempt bound
is exhausted, rather than a `RetryError`). -/
def saveOpFrom (cb : Metadata → Except GceError Metadata) (env : Nat → AttemptEnv) :
    Nat → Nat → List OpEvent × Except GceError Unit
  | 0, i =>
    let (tr, r) := runAttempt cb (env i)
    (tr, r)
  | retriesLeft + 1, i =>
    let (tr, r) := runAttempt cb (env i)
    match r with
    | .ok _ => (tr, .ok ())
    | .error e =>
      if if_fingerprint_differs e then
        let (tr', r') := saveOpFrom cb env retriesLeft (i + 1)
        (tr ++ tr', r')
      else
        (tr, .error e)

/-- `gce_metadata_save_op(provider, callback)`:
`stop_after_attempt(10)` = 1 initial attempt + 9 retries. -/
def gce_metadata_save_op (cb : Metadata → Except GceError Metadata)
    (env : Nat → AttemptEnv) : List OpEvent × Except GceError Unit :=
  saveOpFrom cb env 9 0

/-- Replace the value of the first item whose key is `key` (helper for
embedding `entries[-1]['value'] = value`, which mutates, through list
aliasing, the last document-order item with that key: we replace the
first match of the reversed list). -/
def setFirstMatching (key value : String) : List Item → List Item
  | [] => []
  | it :: rest =>
    if it.key == key then { it with value := value } :: rest
    else it :: setFirstMatching key value rest

/-- `_update_metadata_key(metadata)` inside `modify_or_add_metadata_item`:
`entries = [item for item in metadata.get('items', []) if item['key'] == key]`;
if `entries` is nonempty, `entries[-1]['value'] = value` (in-place update
of the last matching item); otherwise append `{'key': key, 'value': value}`,
creating the `items` list when the document has none. -/
def update_metadata_key (key value : String) (metadata : Metadata) : Metadata :=
  let entries := (metadata.items.getD []).filter (fun item => item.key == key)
  if entries.isEmpty then
    match metadata.items with
    | none => { items := some [⟨key, value⟩] }
    | some l => { items := some (l ++ [⟨key, value⟩]) }
  else
    { items := some ((setFirstMatching key value
        (metadata.items.getD []).reverse).reverse) }

/-- `modify_or_add_metadata_item(provider, key, value)`. -/
def modify_or_add_metadata_item (key value : String) (env : Nat → AttemptEnv) :
    List OpEvent × Except GceError Unit :=
  gce_metadata_save_op (fun m => .ok (update_metadata_key key value m)) env

/-- `_add_metadata_key(metadata)` inside `add_metadata_item`:
`entries = metadata.get('items', []); entries.append(entry);
metadata['items'] = entries`. -/
def add_metadata_key (key value : String) (metadata : Metadata) : Metadata :=
  { items := some ((metadata.items.getD []) ++ [⟨key, value⟩]) }

/-- `add_metadata_item(provider, key, value)`. -/
def add_metadata_item (key value : String) (env : Nat → AttemptEnv) :
    List OpEvent × Except GceError Unit :=
  gce_metadata_save_op (fun m => .ok (add_metadata_key key value m)) env

/-- `_remove_metadata_by_key(metadata)` inside `remove_metadata_item`.
Besides (possibly) mutating the document it has a Python return value
(`False`, or `None` when it falls off the end after deleting), which we
carry as `Option Bool`; the caller discards it.  Raises
`ProviderInternalException` when more than one entry would be deleted. -/
def remove_metadata_by_key (key : String) (metadata : Metadata) :
    Except GceError (Metadata × Option Bool) :=
  let items := metadata.items.getD []
  if items.isEmpty then
    .ok (metadata, some false)
  else
    let entries := items.filter (fun item => item.key != key)
    if entries.length < items.length - 1 then
      .error (.providerInternal
        ("Multiple metadata entries found for the same key " ++ key))
    else if entries.length = items.length then
      .ok (metadata, some false)
    else
      .ok ({ items := some entries }, none)

/-- `remove_metadata_item(provider, key)`: runs the save op with
`_remove_metadata_by_key` (whose Python return value the save op drops)
and then unconditionally returns `True`. -/
def remove_metadata_item (key : String) (env : Nat → AttemptEnv) :
    List OpEvent × Except GceError Bool :=
  let (tr, r) :=
    gce_metadata_save_op
      (fun m => (remove_metadata_by_key key m).map Prod.fst) env
  (tr, r.map (fun _ => true))

/-- `get_metadata_item_value(provider, key)`: one fetch, no write;
`entries = [item['value'] ... if item['key'] == key]`; return
`entries[-1]` if `entries` else `None`. -/
def get_metadata_item_value (key : String) (d : Metadata) :
    List OpEvent × Option String :=
  let entries := ((d.items.getD []).filter
      (fun item => item.key == key)).map Item.value
  ([.fetch d], entries.getLast?)

/-!  `find_all_metadata_items` filters keys with
`re.search(fnmatch.translate(key_regex), item['key'])`.
`fnmatch.translate` turns the glob into a regex of the shape
`(?s:...)\Z`: `*` becomes `.*`, `?` becomes `.`, `[seq]` / `[!seq]`
become character classes (an unterminated `[` is a literal), and every
other character is quoted.  The regex is end-anchored (`\Z`) but
`re.search` tries every start position, so the composite semantics is:
some suffix of the key starting at any position is fully matched by the
glob.  We embed the glob pattern language and this search semantics
directly. -/

/-- One element of a `[seq]` character class: a single character or a
`lo-hi` range. -/
inductive ClsElem where
  | single (c : Char)
  | range (lo hi : Char)
deriving DecidableEq, Repr

/-- Tokens of an `fnmatch` pattern. -/
inductive GlobTok where
  | star
  | anyChar
  | lit (c : Char)
  | cls (negated : Bool) (elems : List ClsElem)
deriving DecidableEq, Repr

/-- Parse the body of a `[...]` class (after the optional `!` and after
an initial literal `]` has been consumed by the caller's scan): chars,
with `a-b` forming ranges when `-` is neither first nor last. -/
def parseClsBody : List Char → List ClsElem
  | [] => []
  | lo :: '-' :: hi :: rest => .range lo hi :: parseClsBody rest
  | c :: rest => .single c :: parseClsBody rest

/-- Split a class body at the first `]` that is not in the leading
position: returns the body and the remainder after `]`, or `none` when
the class is unterminated. -/
def splitClass : List Char → Option (List Char × List Char)
  | [] => none
  | c :: rest =>
    if c = ']' then some ([], rest)
    else
      match splitClass rest with
      | some (body, rem) => some (c :: body, rem)
      | none => none

/-- Scan a class after `[` and an optional leading `!`: an initial `]`
is a literal member, then the class body runs to the next `]`. -/
def scanClass : List Char → Option (List Char × List Char)
  | [] => none
  | c :: s' =>
    if c = ']' then
      match splitClass s' with
      | some (body, rem) => some (']' :: body, rem)
      | none => none
    else
      splitClass (c :: s')

/-- Tokenize an `fnmatch` pattern (an unterminated `[` is a literal;
after an unterminated `[!`, the `!` is processed as an ordinary
character, as `translate` resumes right after the `[`).  Every step
consumes at least one character, so `fuel = s.length` always suffices;
the fuel only makes the recursion structural. -/
def globTokenizeF : Nat → List Char → List GlobTok
  | _, [] => []
  | 0, _ :: _ => []
  | fuel + 1, '*' :: rest => .star :: globTokenizeF fuel rest
  | fuel + 1, '?' :: rest => .anyChar :: globTokenizeF fuel rest
  | fuel + 1, '[' :: '!' :: rest' =>
    (match scanClass rest' with
     | some (body, rem) => .cls true (parseClsBody body) :: globTokenizeF fuel rem
     | none => .lit '[' :: globTokenizeF fuel ('!' :: rest'))
  | fuel + 1, '[' :: rest =>
    (match scanClass rest with
     | some (body, rem) => .cls false (parseClsBody body) :: globTokenizeF fuel rem
     | none => .lit '[' :: globTokenizeF fuel rest)
  | fuel + 1, c :: rest => .lit c :: globTokenizeF fuel rest

def globTokenize (s : List Char) : List GlobTok :=
  globTokenizeF s.length s

/-- Does character `c` belong to the class described by `elems`? -/
def clsMatch (elems : List ClsElem) (c : Char) : Bool :=
  elems.any (fun e =>
    match e with
    | .single c' => c == c'
    | .range lo hi => decide (lo ≤ c) && decide (c ≤ hi))

/-- Full-match of a token list against a character list (the regex
produced by `fnmatch.translate` is end-anchored with `\Z`, and `(?s:)`
lets `.` match every character including newlines).  `*` (regex `.*`)
matches when some split lets the rest of the tokens match the rest of
the string. -/
def globMatch : List GlobTok → List Char → Bool
  | [], s => s.isEmpty
  | .star :: ts, s =>
    (List.range (s.length + 1)).any (fun i => globMatch ts (s.drop i))
  | .anyChar :: _, [] => false
  | .anyChar :: ts, _ :: s' => globMatch ts s'
  | .lit _ :: _, [] => false
  | .lit c :: ts, c' :: s' => c == c' && globMatch ts s'
  | .cls _ _ :: _, [] => false
  | .cls neg elems :: ts, c' :: s' =>
    (clsMatch elems c' != neg) && globMatch ts s'

/-- `re.search(fnmatch.translate(pat), s)`: the end-anchored glob regex
matches starting from some position of `s`. -/
def globSearch (toks : List GlobTok) (s : String) : Bool :=
  (List.range (s.data.length + 1)).any
    (fun i => globMatch toks (s.data.drop i))

/-- `find_all_metadata_items(provider, key_regex)`: one fetch, no write;
returns `[]` when there are no items, otherwise the items whose key the
translated pattern search-matches. -/
def find_all_metadata_items (key_regex : String) (d : Metadata) :
    List OpEvent × List Item :=
  let items := d.items.getD []
  if items.isEmpty then
    ([.fetch d], [])
  else
    ([.fetch d],
      items.filter (fun item => globSearch (globTokenize key_regex.data) item.key))

/-- The three events of attempt `j` when the callback transforms the
fetched document into `d j`. -/
def attemptChunk (env : Nat → AttemptEnv) (d : Nat → Metadata) (j : Nat) :
    List OpEvent :=
  [.fetch (env j).fetched, .callbackCall (env j).fetched, .commit (d j)]

/-! ### Helper lemmas about the retry loop -/

theorem runAttempt_ok {cb : Metadata → Except GceError Metadata} {env : AttemptEnv}
    {d' : Metadata} (h1 : cb env.fetched = .ok d') (h2 : env.commitResult = none) :
    runAttempt cb env =
      ([.fetch env.fetched, .callbackCall env.fetched, .commit d'], .ok ()) := by
  simp [runAttempt, h1, h2]

theorem runAttempt_commit_error {cb : Metadata → Except GceError Metadata}
    {env : AttemptEnv} {d' : Metadata} {e : GceError}
    (h1 : cb env.fetched = .ok d') (h2 : env.commitResult = some e) :
    runAttempt cb env =
      ([.fetch env.fetched, .callbackCall env.fetched, .commit d'], .error e) := by
  simp [runAttempt, h1, h2]

theorem runAttempt_callback_error {cb : Metadata → Except GceError Metadata}
    {env : AttemptEnv} {e : GceError} (h1 : cb env.fetched = .error e) :
    runAttempt cb env = ([.fetch env.fetched, .callbackCall env.fetched], .error e) := by
  simp [runAttempt, h1]

theorem countFetches_runAttempt (cb : Metadata → Except GceError Metadata)
    (env : AttemptEnv) : countFetches (runAttempt cb env).1 = 1 := by
  rcases h1 : cb env.fetched with e | d'
  · simp [runAttempt, h1, countFetches, List.countP_cons]
  · rcases h2 : env.commitResult with _ | e <;>
      simp [runAttempt, h1, h2, countFetches, List.countP_cons]

theorem countCommits_runAttempt_le (cb : Metadata → Except GceError Metadata)
    (env : AttemptEnv) : countCommits (runAttempt cb env).1 ≤ 1 := by
  rcases h1 : cb env.fetched with e | d'
  · simp [runAttempt, h1, countCommits, List.countP_cons]
  · rcases h2 : env.commitResult with _ | e <;>
      simp [runAttempt, h1, h2, countCommits, List.countP_cons]

theorem countFetches_append (l1 l2 : List OpEvent) :
    countFetches (l1 ++ l2) = countFetches l1 + countFetches l2 :=
  List.countP_append _ _ _

theorem countCallbacks_append (l1 l2 : List OpEvent) :
    countCallbacks (l1 ++ l2) = countCallbacks l1 + countCallbacks l2 :=
  List.countP_append _ _ _

theorem countCommits_append (l1 l2 : List OpEvent) :
    countCommits (l1 ++ l2) = countCommits l1 + countCommits l2 :=
  List.countP_append _ _ _

/-- With no retries left, the run is just the final attempt. -/
theorem saveOpFrom_zero (cb : Metadata → Except GceError Metadata)
    (env : Nat → AttemptEnv) (i : Nat) :
    saveOpFrom cb env 0 i = runAttempt cb (env i) := by
  simp [saveOpFrom]

/-- Raising an error the retry predicate rejects stops the loop at once:
the run is exactly the failed attempt and the error itself. -/
theorem saveOpFrom_stop {cb : Metadata → Except GceError Metadata}
    {env : Nat → AttemptEnv} {e : GceError} (r i : Nat)
    (h : (runAttempt cb (env i)).2 = .error e)
    (hfp : if_fingerprint_differs e = false) :
    saveOpFrom cb env r i = ((runAttempt cb (env i)).1, .error e) := by
  rcases hA : runAttempt cb (env i) with ⟨tr, res⟩
  rw [hA] at h
  simp only at h
  subst h
  cases r with
  | zero => simp [saveOpFrom, hA]
  | succ n => simp [saveOpFrom, hA, hfp]

/-- A successful attempt ends the loop successfully. -/
theorem saveOpFrom_ok {cb : Metadata → Except GceError Metadata}
    {env : Nat → AttemptEnv} (r i : Nat)
    (h : (runAttempt cb (env i)).2 = .ok ()) :
    saveOpFrom cb env r i = ((runAttempt cb (env i)).1, .ok ()) := by
  rcases hA : runAttempt cb (env i) with ⟨tr, res⟩
  rw [hA] at h
  simp only at h
  subst h
  cases r with
  | zero => simp [saveOpFrom, hA]
  | succ n => simp [saveOpFrom, hA]

/-- A fingerprint-conflict error with retries remaining causes a retry:
the run continues with the next attempt. -/
theorem saveOpFrom_retry {cb : Metadata → Except GceError Metadata}
    {env : Nat → AttemptEnv} {e : GceError} (n i : Nat)
    (h : (runAttempt cb (env i)).2 = .error e)
    (hfp : if_fingerprint_differs e = true) :
    saveOpFrom cb env (n + 1) i =
      ((runAttempt cb (env i)).1 ++ (saveOpFrom cb env n (i + 1)).1,
        (saveOpFrom cb env n (i + 1)).2) := by
  rcases hA : runAttempt cb (env i) with ⟨tr, res⟩
  rw [hA] at h
  simp only at h
  subst h
  simp [saveOpFrom, hA, hfp]

/-- Every run of the loop performs at least one fetch. -/
theorem one_le_countFetches_saveOpFrom (cb : Metadata → Except GceError Metadata)
    (env : Nat → AttemptEnv) (r i : Nat) :
    1 ≤ countFetches (saveOpFrom cb env r i).1 := by
  have hF := countFetches_runAttempt cb (env i)
  rcases hA : runAttempt cb (env i) with ⟨tr, res⟩
  rw [hA] at hF
  cases r with
  | zero => simp [saveOpFrom, hA, hF]
  | succ n =>
    rcases res with e | u
    · by_cases hfp : if_fingerprint_differs e = true
      · simp only [saveOpFrom, hA, hfp, if_true]
        rw [countFetches_append, hF]
        omega
      · simp only [Bool.not_eq_true] at hfp
        simp [saveOpFrom, hA, hfp, hF]
    · simp [saveOpFrom, hA, hF]

/-- C1: a failure raised by an attempt of `gce_metadata_save_op` is
retried iff it is an `HttpError` whose content contains the
fingerprint-mismatch message; any other failure (transport, not-found,
duplicate-key, internal-consistency) propagates immediately and
unmodified, after exactly one fetch and at most one commit attempt. -/
theorem save_op_retries_iff_fingerprint_mismatch
    (cb : Metadata → Except GceError Metadata) (env : Nat → AttemptEnv)
    (e : GceError) (h : (runAttempt cb (env 0)).2 = .error e) :
    ((if_fingerprint_differs e = true) ↔
      ∃ c, e = GceError.httpError c ∧
        containsSub expected_message.data c.data = true)
    ∧ (if_fingerprint_differs e = false →
        gce_metadata_save_op cb env = ((runAttempt cb (env 0)).1, .error e)
        ∧ countFetches (gce_metadata_save_op cb env).1 = 1
        ∧ countCommits (gce_metadata_save_op cb env).1 ≤ 1)
    ∧ (if_fingerprint_differs e = true →
        gce_metadata_save_op cb env
          = ((runAttempt cb (env 0)).1 ++ (saveOpFrom cb env 8 1).1,
             (saveOpFrom cb env 8 1).2)
        ∧ 2 ≤ countFetches (gce_metadata_save_op cb env).1) := by
  refine ⟨?_, ?_, ?_⟩
  · cases e <;> simp [if_fingerprint_differs]
  · intro hfp
    have hrun : gce_metadata_save_op cb env = ((runAttempt cb (env 0)).1, .error e) :=
      saveOpFrom_stop 9 0 h hfp
    refine ⟨hrun, ?_, ?_⟩
    · rw [hrun]; exact countFetches_runAttempt cb (env 0)
    · rw [hrun]; exact countCommits_runAttempt_le cb (env 0)
  · intro hfp
    have hrun := saveOpFrom_retry 8 0 h hfp
    refine ⟨hrun, ?_⟩
    have h1 := countFetches_runAttempt cb (env 0)
    have h2 := one_le_countFetches_saveOpFrom cb env 8 1
    have hgoal : (gce_metadata_save_op cb env).1
        = (runAttempt cb (env 0)).1 ++ (saveOpFrom cb env 8 1).1 := by
      rw [show gce_metadata_save_op cb env = saveOpFrom cb env 9 0 from rfl, hrun]
    rw [hgoal, countFetches_append, h1]
    omega

/-- Witness for C1: a transport error on the first commit attempt
propagates unmodified after one fetch and one commit. -/
theorem save_op_retries_iff_fingerprint_mismatch_witness :
    (runAttempt (fun m => .ok m)
        ((fun _ => ⟨⟨none⟩, some (.transportError "boom")⟩ : Nat → AttemptEnv) 0)).2
      = .error (.transportError "boom")
    ∧ gce_metadata_save_op (fun m => .ok m)
        (fun _ => ⟨⟨none⟩, some (.transportError "boom")⟩)
      = ([.fetch ⟨none⟩, .callbackCall ⟨none⟩, .commit ⟨none⟩],
         .error (.transportError "boom")) := by
  refine ⟨rfl, ?_⟩
  exact (save_op_retries_iff_fingerprint_mismatch (fun m => .ok m)
    (fun _ => ⟨⟨none⟩, some (.transportError "boom")⟩)
    (.transportError "boom") rfl).2.1 rfl |>.1

theorem countP_flatMap_chunks (p : OpEvent → Bool) (f : Nat → List OpEvent)
    (l : List Nat) (h : ∀ a ∈ l, (f a).countP p = 1) :
    (l.flatMap f).countP p = l.length := by
  induction l with
  | nil => simp
  | cons a l ih =>
    rw [List.flatMap_cons, List.countP_append, h a (by simp),
      ih (fun b hb => h b (by simp [hb]))]
    simp [Nat.add_comm]

theorem countFetches_attemptChunk (env : Nat → AttemptEnv) (d : Nat → Metadata)
    (j : Nat) : countFetches (attemptChunk env d j) = 1 := by
  simp [attemptChunk, countFetches, List.countP_cons]

theorem countCallbacks_attemptChunk (env : Nat → AttemptEnv) (d : Nat → Metadata)
    (j : Nat) : countCallbacks (attemptChunk env d j) = 1 := by
  simp [attemptChunk, countCallbacks, List.countP_cons]

theorem countCommits_attemptChunk (env : Nat → AttemptEnv) (d : Nat → Metadata)
    (j : Nat) : countCommits (attemptChunk env d j) = 1 := by
  simp [attemptChunk, countCommits, List.countP_cons]

theorem flatMap_chunk_shift (env : Nat → AttemptEnv) (d : Nat → Metadata)
    (n i : Nat) :
    (List.range (n + 1)).flatMap (fun j => attemptChunk env d (i + j))
      = attemptChunk env d i
        ++ (List.range n).flatMap (fun j => attemptChunk env d (i + 1 + j)) := by
  rw [List.range_succ_eq_map, List.flatMap_cons, List.flatMap_map]
  refine congrArg₂ List.append (by rw [Nat.add_zero]) ?_
  refine congrArg₂ List.flatMap rfl (funext fun j => ?_)
  rw [show i + Nat.succ j = i + 1 + j from by omega]

/-- When every attempt's commit fails with a retryable conflict, the loop
runs through its whole budget and re-raises the error of the last
attempt it made. -/
theorem saveOpFrom_all_conflict (cb : Metadata → Except GceError Metadata)
    (env : Nat → AttemptEnv) (d : Nat → Metadata) (err : Nat → GceError)
    (hcb : ∀ j, cb (env j).fetched = .ok (d j))
    (hcommit : ∀ j, (env j).commitResult = some (err j))
    (hfp : ∀ j, if_fingerprint_differs (err j) = true) :
    ∀ r i, saveOpFrom cb env r i
      = ((List.range (r + 1)).flatMap (fun j => attemptChunk env d (i + j)),
         .error (err (i + r))) := by
  intro r
  induction r with
  | zero =>
    intro i
    have hA := runAttempt_commit_error (hcb i) (hcommit i)
    rw [saveOpFrom_zero, hA]
    rfl
  | succ n ih =>
    intro i
    have hA := runAttempt_commit_error (hcb i) (hcommit i)
    have h2 : (runAttempt cb (env i)).2 = .error (err i) := by rw [hA]
    rw [saveOpFrom_retry n i h2 (hfp i), ih (i + 1), hA]
    rw [flatMap_chunk_shift env d (n + 1) i,
      show i + (n + 1) = i + 1 + n from by omega]
    rfl

/-- C2: when every attempt of `gce_metadata_save_op` fails with a
fingerprint-conflict error, exactly 10 attempts (1 initial + 9 retries)
are made and the last conflict error itself is re-raised to the caller,
not a generic retries-exhausted error. -/
theorem conflict_exhaustion_reraises_last_error
    (cb : Metadata → Except GceError Metadata) (env : Nat → AttemptEnv)
    (d : Nat → Metadata) (err : Nat → GceError)
    (hcb : ∀ j, cb (env j).fetched = .ok (d j))
    (hcommit : ∀ j, (env j).commitResult = some (err j))
    (hfp : ∀ j, if_fingerprint_differs (err j) = true) :
    (gce_metadata_save_op cb env).2 = .error (err 9)
    ∧ countFetches (gce_metadata_save_op cb env).1 = 10
    ∧ countCommits (gce_metadata_save_op cb env).1 = 10 := by
  have h := saveOpFrom_all_conflict cb env d err hcb hcommit hfp 9 0
  have h1 : (gce_metadata_save_op cb env).1
      = (List.range 10).flatMap (fun j => attemptChunk env d j) := by
    rw [show gce_metadata_save_op cb env = saveOpFrom cb env 9 0 from rfl, h]
    simp
  have h2 : (gce_metadata_save_op cb env).2 = .error (err 9) := by
    rw [show gce_metadata_save_op cb env = saveOpFrom cb env 9 0 from rfl, h]
  refine ⟨h2, ?_, ?_⟩
  · rw [h1, countFetches,
      countP_flatMap_chunks _ _ _ (fun a _ => countFetches_attemptChunk env d a)]
    simp
  · rw [h1, countCommits,
      countP_flatMap_chunks _ _ _ (fun a _ => countCommits_attemptChunk env d a)]
    simp

/-- Witness for C2: with a fingerprint-conflict commit failure on every
attempt, the run makes 10 attempts and re-raises the conflict error. -/
theorem conflict_exhaustion_reraises_last_error_witness :
    if_fingerprint_differs (.httpError expected_message) = true
    ∧ (gce_metadata_save_op (fun m => .ok m)
        (fun _ => ⟨⟨none⟩, some (.httpError expected_message)⟩)).2
      = .error (.httpError expected_message)
    ∧ countFetches (gce_metadata_save_op (fun m => .ok m)
        (fun _ => ⟨⟨none⟩, some (.httpError expected_message)⟩)).1 = 10 := by
  have hone : if_fingerprint_differs (.httpError expected_message) = true := by decide
  have h := conflict_exhaustion_reraises_last_error (fun m => .ok m)
    (fun _ => ⟨⟨none⟩, some (.httpError expected_message)⟩)
    (fun _ => ⟨none⟩) (fun _ => .httpError expected_message)
    (fun j => rfl) (fun j => rfl) (fun j => hone)
  exact ⟨hone, h.1, h.2.1⟩

/-- When the commit fails with a retryable conflict on the first `k`
attempts (counting from `i`) and attempt `i + k` succeeds, the loop
performs exactly the `k + 1` attempt chunks and succeeds, as long as the
budget allows `k` retries. -/
theorem saveOpFrom_conflicts_then_success
    (cb : Metadata → Except GceError Metadata) (env : Nat → AttemptEnv)
    (d : Nat → Metadata) (err : Nat → GceError)
    (hcb : ∀ j, cb (env j).fetched = .ok (d j))
    (hfp : ∀ j, if_fingerprint_differs (err j) = true) :
    ∀ k r i, k ≤ r →
      (∀ j, j < k → (env (i + j)).commitResult = some (err (i + j))) →
      (env (i + k)).commitResult = none →
      saveOpFrom cb env r i
        = ((List.range (k + 1)).flatMap (fun j => attemptChunk env d (i + j)),
           .ok ()) := by
  intro k
  induction k with
  | zero =>
    intro r i _ _ hsucc
    rw [Nat.add_zero] at hsucc
    have hA := runAttempt_ok (hcb i) hsucc
    have h2 : (runAttempt cb (env i)).2 = .ok () := by rw [hA]
    rw [saveOpFrom_ok r i h2, hA]
    rfl
  | succ m ih =>
    intro r i hkr hconf hsucc
    rcases r with _ | n
    · omega
    have hc0 : (env i).commitResult = some (err i) := by
      have := hconf 0 (by omega)
      simpa using this
    have hA := runAttempt_commit_error (hcb i) hc0
    have h2 : (runAttempt cb (env i)).2 = .error (err i) := by rw [hA]
    rw [saveOpFrom_retry n i h2 (hfp i)]
    rw [ih n (i + 1) (by omega)
      (fun j hj => by
        have := hconf (j + 1) (by omega)
        rwa [show i + (j + 1) = i + 1 + j from by omega] at this)
      (by rwa [show i + 1 + m = i + (m + 1) from by omega])]
    rw [hA]
    rw [flatMap_chunk_shift env d (m + 1) i]
    rfl

/-- C3: every attempt of `gce_metadata_save_op` performs a fresh fetch,
invokes the callback on the newly fetched document, then commits it:
when the commit fails with a fingerprint conflict exactly `k` times
(`k < 10`) and then succeeds, exactly `k + 1` fetches, `k + 1` callback
invocations and `k + 1` commits occur, the trace being the
concatenation of per-attempt chunks in which the callback call carries
exactly the document of the attempt's own fetch. -/
theorem fresh_read_mutate_write_per_attempt
    (cb : Metadata → Except GceError Metadata) (env : Nat → AttemptEnv)
    (d : Nat → Metadata) (err : Nat → GceError) (k : Nat) (hk : k < 10)
    (hcb : ∀ j, cb (env j).fetched = .ok (d j))
    (hfp : ∀ j, if_fingerprint_differs (err j) = true)
    (hconf : ∀ j, j < k → (env j).commitResult = some (err j))
    (hsucc : (env k).commitResult = none) :
    gce_metadata_save_op cb env
      = ((List.range (k + 1)).flatMap (fun j => attemptChunk env d j), .ok ())
    ∧ countFetches (gce_metadata_save_op cb env).1 = k + 1
    ∧ countCallbacks (gce_metadata_save_op cb env).1 = k + 1
    ∧ countCommits (gce_metadata_save_op cb env).1 = k + 1 := by
  have h := saveOpFrom_conflicts_then_success cb env d err hcb hfp k 9 0
    (by omega) (fun j hj => by simpa using hconf j hj) (by simpa using hsucc)
  have hrun : gce_metadata_save_op cb env
      = ((List.range (k + 1)).flatMap (fun j => attemptChunk env d j), .ok ()) := by
    rw [show gce_metadata_save_op cb env = saveOpFrom cb env 9 0 from rfl, h]
    simp
  have h1 : (gce_metadata_save_op cb env).1
      = (List.range (k + 1)).flatMap (fun j => attemptChunk env d j) := by
    rw [hrun]
  refine ⟨hrun, ?_, ?_, ?_⟩
  · rw [h1, countFetches,
      countP_flatMap_chunks _ _ _ (fun a _ => countFetches_attemptChunk env d a)]
    simp
  · rw [h1, countCallbacks,
      countP_flatMap_chunks _ _ _ (fun a _ => countCallbacks_attemptChunk env d a)]
    simp
  · rw [h1, countCommits,
      countP_flatMap_chunks _ _ _ (fun a _ => countCommits_attemptChunk env d a)]
    simp

/-- Witness for C3: two conflicts then success gives exactly 3 fetches,
3 callback invocations and 3 commits. -/
theorem fresh_read_mutate_write_per_attempt_witness :
    (2 : Nat) < 10
    ∧ countFetches (gce_metadata_save_op (fun m => .ok m)
        (fun i => if i < 2 then ⟨⟨none⟩, some (.httpError expected_message)⟩
                  else ⟨⟨none⟩, none⟩)).1 = 3
    ∧ (gce_metadata_save_op (fun m => .ok m)
        (fun i => if i < 2 then ⟨⟨none⟩, some (.httpError expected_message)⟩
                  else ⟨⟨none⟩, none⟩)).2 = .ok () := by
  have h := fresh_read_mutate_write_per_attempt (fun m => .ok m)
    (fun i => if i < 2 then ⟨⟨none⟩, some (.httpError expected_message)⟩
              else ⟨⟨none⟩, none⟩)
    (fun i => ⟨none⟩) (fun _ => .httpError expected_message) 2 (by omega)
    (fun j => by by_cases hj : j < 2 <;> simp [hj])
    (fun j =>
      (show if_fingerprint_differs (.httpError expected_message) = true by decide))
    (fun j hj => by
      match j, hj with
      | 0, _ => rfl
      | 1, _ => rfl)
    rfl
  exact ⟨by omega, h.2.1, by rw [h.1]⟩

/-! ### Item-level operations -/

theorem length_filter_key_split (key : String) (l : List Item) :
    (l.filter (fun it => it.key != key)).length
      + (l.filter (fun it => it.key == key)).length = l.length := by
  induction l with
  | nil => rfl
  | cons it l ih =>
    simp only [List.filter_cons, List.length_cons]
    by_cases hk : (it.key == key) = true
    · have h1 : (it.key != key) = false := by simp [bne, hk]
      rw [hk, h1]
      simp only [if_true, Bool.false_eq_true, if_false, List.length_cons]
      omega
    · have hk' : (it.key == key) = false := by simpa using hk
      have h1 : (it.key != key) = true := by simp [bne, hk']
      rw [hk', h1]
      simp only [if_true, Bool.false_eq_true, if_false, List.length_cons]
      omega

/-- C4 (failing input for the claim): removing a key that is absent from
the document still returns `true`.  `_remove_metadata_by_key` returns
`False` to signal "nothing removed", but `gce_metadata_save_op` discards
the callback's return value and `remove_metadata_item` unconditionally
ends with `return True`, so the caller cannot observe the no-op. -/
theorem remove_metadata_item_true_when_key_absent :
    remove_metadata_by_key "b" ⟨some [⟨"a", "1"⟩]⟩
      = .ok (⟨some [⟨"a", "1"⟩]⟩, some false)
    ∧ remove_metadata_item "b" (fun _ => ⟨⟨some [⟨"a", "1"⟩]⟩, none⟩)
      = ([.fetch ⟨some [⟨"a", "1"⟩]⟩, .callbackCall ⟨some [⟨"a", "1"⟩]⟩,
          .commit ⟨some [⟨"a", "1"⟩]⟩], .ok true) :=
  ⟨rfl, rfl⟩

/-- C5: when two or more items carry the target key, the delete mutation
raises `ProviderInternalException` locally, before any commit: the run
is one fetch and one callback invocation, no commit, and the error
propagates to the caller without any retry. -/
theorem duplicate_key_raises_internal_error (m : Metadata) (key : String)
    (h : 2 ≤ ((m.items.getD []).filter (fun it => it.key == key)).length) :
    remove_metadata_by_key key m
      = .error (.providerInternal
          ("Multiple metadata entries found for the same key " ++ key))
    ∧ ∀ env : Nat → AttemptEnv, (env 0).fetched = m →
        remove_metadata_item key env
          = ([.fetch m, .callbackCall m],
             .error (.providerInternal
               ("Multiple metadata entries found for the same key " ++ key))) := by
  have hsplit := length_filter_key_split key (m.items.getD [])
  have hcb : remove_metadata_by_key key m
      = .error (.providerInternal
          ("Multiple metadata entries found for the same key " ++ key)) := by
    rcases hI : m.items.getD [] with _ | ⟨x, xs⟩
    · rw [hI] at h
      simp at h
    · rw [hI] at h hsplit
      have hflt := List.length_filter_le (fun it => it.key == key) (x :: xs)
      simp only [remove_metadata_by_key, hI]
      split
      · rename_i hemp
        simp at hemp
      · split
        · rfl
        · rename_i hcond
          rw [Nat.not_lt] at hcond
          exfalso
          simp only [List.length_cons] at hsplit hflt hcond
          omega
  refine ⟨hcb, fun env henv => ?_⟩
  have hcberr : (fun mm => (remove_metadata_by_key key mm).map Prod.fst)
      (env 0).fetched
      = .error (.providerInternal
          ("Multiple metadata entries found for the same key " ++ key)) := by
    show (remove_metadata_by_key key (env 0).fetched).map Prod.fst = _
    rw [henv, hcb]
    rfl
  have hA := @runAttempt_callback_error
      (fun mm => (remove_metadata_by_key key mm).map Prod.fst) (env 0)
      (.providerInternal
        ("Multiple metadata entries found for the same key " ++ key)) hcberr
  have hstop := @saveOpFrom_stop
      (fun mm => (remove_metadata_by_key key mm).map Prod.fst) env
      (.providerInternal
        ("Multiple metadata entries found for the same key " ++ key))
      9 0 (by rw [hA]) rfl
  have hsplit2 : remove_metadata_item key env
      = ((saveOpFrom (fun mm => (remove_metadata_by_key key mm).map Prod.fst)
            env 9 0).1,
         (saveOpFrom (fun mm => (remove_metadata_by_key key mm).map Prod.fst)
            env 9 0).2.map (fun _ => true)) := rfl
  rw [hsplit2, hstop]
  dsimp only
  rw [hA]
  dsimp only
  rw [henv]
  rfl

/-- Witness for C5: a document with two entries for the key. -/
theorem duplicate_key_raises_internal_error_witness :
    2 ≤ (((⟨some [⟨"a", "1"⟩, ⟨"a", "2"⟩]⟩ : Metadata).items.getD []).filter
        (fun it => it.key == "a")).length
    ∧ remove_metadata_by_key "a" ⟨some [⟨"a", "1"⟩, ⟨"a", "2"⟩]⟩
      = .error (.providerInternal
          ("Multiple metadata entries found for the same key " ++ "a")) :=
  ⟨by decide,
   (duplicate_key_raises_internal_error ⟨some [⟨"a", "1"⟩, ⟨"a", "2"⟩]⟩ "a"
     (by decide)).1⟩

/-- C9: when no item carries the target key, the delete mutation leaves
the document unchanged, yet the driver still submits the unmodified
document to the write call: the commit is attempted even in the
nothing-to-delete case. -/
theorem remove_commits_unmodified_document (key : String) (m : Metadata)
    (h : ∀ y ∈ m.items.getD [], (y.key == key) = false) :
    remove_metadata_by_key key m = .ok (m, some false)
    ∧ ∀ env : Nat → AttemptEnv, env 0 = ⟨m, none⟩ →
        remove_metadata_item key env
          = ([.fetch m, .callbackCall m, .commit m], .ok true) := by
  have hcb : remove_metadata_by_key key m = .ok (m, some false) := by
    rcases hI : m.items.getD [] with _ | ⟨x, xs⟩
    · simp [remove_metadata_by_key, hI]
    · rw [hI] at h
      have hfe : (x :: xs).filter (fun it => it.key != key) = x :: xs := by
        apply List.filter_eq_self.2
        intro a ha
        simp [bne, h a ha]
      simp only [remove_metadata_by_key, hI, hfe]
      split
      · rename_i hemp
        simp at hemp
      · split
        · rename_i hcond
          exfalso
          omega
        · split
          · rfl
          · rename_i hne
            exact absurd trivial hne
  refine ⟨hcb, fun env henv => ?_⟩
  have hok : (fun mm => (remove_metadata_by_key key mm).map Prod.fst)
      (env 0).fetched = .ok m := by
    rw [henv]
    show (remove_metadata_by_key key m).map Prod.fst = .ok m
    rw [hcb]
    rfl
  have hcommit : (env 0).commitResult = none := by rw [henv]
  have hA := @runAttempt_ok
      (fun mm => (remove_metadata_by_key key mm).map Prod.fst) (env 0) m
      hok hcommit
  have hrun := @saveOpFrom_ok
      (fun mm => (remove_metadata_by_key key mm).map Prod.fst) env
      9 0 (by rw [hA])
  have hsplit2 : remove_metadata_item key env
      = ((saveOpFrom (fun mm => (remove_metadata_by_key key mm).map Prod.fst)
            env 9 0).1,
         (saveOpFrom (fun mm => (remove_metadata_by_key key mm).map Prod.fst)
            env 9 0).2.map (fun _ => true)) := rfl
  rw [hsplit2, hrun]
  dsimp only
  rw [hA]
  dsimp only
  rw [henv]
  rfl

/-- Witness for C9: removing key `"b"` from a document holding only key
`"a"` still commits the unchanged document. -/
theorem remove_commits_unmodified_document_witness :
    (∀ y ∈ ((⟨some [⟨"a", "1"⟩]⟩ : Metadata).items.getD []),
      (y.key == "b") = false)
    ∧ remove_metadata_item "b" (fun _ => ⟨⟨some [⟨"a", "1"⟩]⟩, none⟩)
      = ([.fetch ⟨some [⟨"a", "1"⟩]⟩, .callbackCall ⟨some [⟨"a", "1"⟩]⟩,
          .commit ⟨some [⟨"a", "1"⟩]⟩], .ok true) := by
  have h : ∀ y ∈ ((⟨some [⟨"a", "1"⟩]⟩ : Metadata).items.getD []),
      (y.key == "b") = false := by decide
  exact ⟨h, (remove_commits_unmodified_document "b" ⟨some [⟨"a", "1"⟩]⟩ h).2
    (fun _ => ⟨⟨some [⟨"a", "1"⟩]⟩, none⟩) rfl⟩

theorem setFirstMatching_no_match (key value : String) {l1 : List Item}
    (l2 : List Item) (h : ∀ y ∈ l1, (y.key == key) = false) :
    setFirstMatching key value (l1 ++ l2) = l1 ++ setFirstMatching key value l2 := by
  induction l1 with
  | nil => rfl
  | cons x xs ih =>
    simp only [List.cons_append, setFirstMatching, h x (by simp),
      Bool.false_eq_true, if_false, List.append_eq]
    rw [ih (fun y hy => h y (by simp [hy]))]

theorem setFirstMatching_match (key value : String) (x : Item) (l : List Item)
    (hx : x.key = key) :
    setFirstMatching key value (x :: l) = ⟨key, value⟩ :: l := by
  simp [setFirstMatching, hx]

/-- C6: the mutation of `modify_or_add_metadata_item` replaces the value
of the last (document-order) item with the given key when one exists,
leaving everything else in place, and otherwise appends a new
`{key, value}` entry at the end, creating the `items` list if the
document had none. -/
theorem modify_or_add_upsert_semantics (key value : String) (m : Metadata) :
    (∀ pre x post, m.items.getD [] = pre ++ x :: post → x.key = key →
        (∀ y ∈ post, (y.key == key) = false) →
        (update_metadata_key key value m).items
          = some (pre ++ ⟨key, value⟩ :: post))
    ∧ ((∀ y ∈ m.items.getD [], (y.key == key) = false) →
        (update_metadata_key key value m).items
          = some (m.items.getD [] ++ [⟨key, value⟩])) := by
  constructor
  · intro pre x post hdec hx hpost
    have hxmem : x ∈ (m.items.getD []).filter (fun it => it.key == key) := by
      rw [hdec]
      exact List.mem_filter.2 ⟨by simp, by simp [hx]⟩
    have hne : ((m.items.getD []).filter (fun it => it.key == key)).isEmpty
        = false :=
      List.isEmpty_eq_false.2 (List.ne_nil_of_mem hxmem)
    simp only [update_metadata_key, hne, Bool.false_eq_true, if_false]
    rw [hdec, List.reverse_append, List.reverse_cons, List.append_assoc,
      List.singleton_append]
    rw [setFirstMatching_no_match key value (x :: pre.reverse)
      (fun y hy => hpost y (List.mem_reverse.1 hy))]
    rw [setFirstMatching_match key value x pre.reverse hx]
    rw [List.reverse_append, List.reverse_cons, List.reverse_reverse,
      List.reverse_reverse]
    simp
  · intro h
    have hnil : (m.items.getD []).filter (fun it => it.key == key) = [] :=
      List.filter_eq_nil_iff.2 (fun a ha => by simp [h a ha])
    simp only [update_metadata_key, hnil, List.isEmpty_nil, if_true]
    rcases hI : m.items with _ | l
    · simp [hI]
    · simp [hI]

/-- Witness for C6: updating key `"k"` rewrites the value of the last
`"k"` entry in place; on a document without `items` it creates the
list with the single new entry. -/
theorem modify_or_add_upsert_semantics_witness :
    (update_metadata_key "k" "v"
        ⟨some [⟨"k", "a"⟩, ⟨"o", "b"⟩, ⟨"k", "c"⟩]⟩).items
      = some [⟨"k", "a"⟩, ⟨"o", "b"⟩, ⟨"k", "v"⟩]
    ∧ (update_metadata_key "k" "v" ⟨none⟩).items = some [⟨"k", "v"⟩] := by
  constructor
  · have h := (modify_or_add_upsert_semantics "k" "v"
      ⟨some [⟨"k", "a"⟩, ⟨"o", "b"⟩, ⟨"k", "c"⟩]⟩).1
      [⟨"k", "a"⟩, ⟨"o", "b"⟩] ⟨"k", "c"⟩ [] rfl rfl (by simp)
    simpa using h
  · have h := (modify_or_add_upsert_semantics "k" "v" ⟨none⟩).2 (by simp)
    simpa using h

/-- C7: `get_metadata_item_value` performs a single fetch and no write,
and returns the value of the last (document-order) item whose key
matches, or `none` when no item matches; over
`[{k,a},{other,b},{k,c}]` it returns `"c"`. -/
theorem get_item_value_last_match (key : String) (d : Metadata) :
    (get_metadata_item_value key d).1 = [.fetch d]
    ∧ countCommits (get_metadata_item_value key d).1 = 0
    ∧ (∀ pre x post, d.items.getD [] = pre ++ x :: post → x.key = key →
        (∀ y ∈ post, (y.key == key) = false) →
        (get_metadata_item_value key d).2 = some x.value)
    ∧ ((∀ y ∈ d.items.getD [], (y.key == key) = false) →
        (get_metadata_item_value key d).2 = none)
    ∧ (get_metadata_item_value "k"
        ⟨some [⟨"k", "a"⟩, ⟨"other", "b"⟩, ⟨"k", "c"⟩]⟩).2 = some "c" := by
  refine ⟨rfl, rfl, ?_, ?_, rfl⟩
  · intro pre x post hdec hx hpost
    have hpostnil : post.filter (fun it => it.key == key) = [] :=
      List.filter_eq_nil_iff.2 (fun a ha => by simp [hpost a ha])
    show (((d.items.getD []).filter (fun it => it.key == key)).map
        Item.value).getLast? = some x.value
    rw [hdec, List.filter_append, List.filter_cons, if_pos (by simp [hx]),
      hpostnil, List.map_append]
    exact List.getLast?_concat _
  · intro h
    have hnil : (d.items.getD []).filter (fun it => it.key == key) = [] :=
      List.filter_eq_nil_iff.2 (fun a ha => by simp [h a ha])
    show (((d.items.getD []).filter (fun it => it.key == key)).map
        Item.value).getLast? = none
    rw [hnil]
    rfl

/-- Witness for C7: over `[{k,a},{other,b},{k,c}]` the last match wins. -/
theorem get_item_value_last_match_witness :
    ((⟨some [⟨"k", "a"⟩, ⟨"other", "b"⟩, ⟨"k", "c"⟩]⟩ : Metadata).items.getD [])
      = [⟨"k", "a"⟩, ⟨"other", "b"⟩] ++ ⟨"k", "c"⟩ :: []
    ∧ (get_metadata_item_value "k"
        ⟨some [⟨"k", "a"⟩, ⟨"other", "b"⟩, ⟨"k", "c"⟩]⟩).2 = some "c" :=
  ⟨rfl, (get_item_value_last_match "k"
    ⟨some [⟨"k", "a"⟩, ⟨"other", "b"⟩, ⟨"k", "c"⟩]⟩).2.2.1
    [⟨"k", "a"⟩, ⟨"other", "b"⟩] ⟨"k", "c"⟩ [] rfl rfl (by simp)⟩

/-- C8: `find_all_metadata_items` performs a single fetch and no write,
and returns, in original document order, exactly the items whose key the
glob pattern matches under translate-then-search semantics (end-anchored
but free to start at any position, hence substring search rather than
full-string matching); with pattern `"foo*"` over keys `foobar`, `baz`,
`foo` it returns exactly the `foobar` and `foo` entries in order, and
the non-anchored semantics also matches `"foo*"` against `"xfoo"`. -/
theorem find_all_items_glob_search (pat : String) (d : Metadata) :
    (find_all_metadata_items pat d).1 = [.fetch d]
    ∧ countCommits (find_all_metadata_items pat d).1 = 0
    ∧ (find_all_metadata_items pat d).2.Sublist (d.items.getD [])
    ∧ (∀ it, it ∈ (find_all_metadata_items pat d).2 ↔
        it ∈ d.items.getD [] ∧ globSearch (globTokenize pat.data) it.key = true)
    ∧ (find_all_metadata_items "foo*"
        ⟨some [⟨"foobar", "1"⟩, ⟨"baz", "2"⟩, ⟨"foo", "3"⟩]⟩).2
      = [⟨"foobar", "1"⟩, ⟨"foo", "3"⟩]
    ∧ globSearch (globTokenize "foo*".data) "xfoo" = true := by
  by_cases hemp : (d.items.getD []).isEmpty = true
  · have hnil : d.items.getD [] = [] := List.isEmpty_iff.1 hemp
    refine ⟨?_, ?_, ?_, ?_, by decide, by decide⟩
    · simp [find_all_metadata_items, hemp]
    · simp [find_all_metadata_items, hemp, countCommits]
    · simp [find_all_metadata_items, hemp, hnil]
    · intro it
      simp [find_all_metadata_items, hemp, hnil]
  · refine ⟨?_, ?_, ?_, ?_, by decide, by decide⟩
    · simp [find_all_metadata_items, hemp]
    · simp [find_all_metadata_items, hemp, countCommits]
    · simp only [find_all_metadata_items, hemp, Bool.false_eq_true, if_false]
      exact List.filter_sublist _
    · intro it
      simp only [find_all_metadata_items, hemp, Bool.false_eq_true, if_false]
      exact List.mem_filter

/-- Witness for C8: the `foobar` entry is reported for pattern
`"foo*"`. -/
theorem find_all_items_glob_search_witness :
    (⟨"foobar", "1"⟩ : Item) ∈ (find_all_metadata_items "foo*"
        ⟨some [⟨"foobar", "1"⟩, ⟨"baz", "2"⟩, ⟨"foo", "3"⟩]⟩).2 :=
  ((find_all_items_glob_search "foo*"
      ⟨some [⟨"foobar", "1"⟩, ⟨"baz", "2"⟩, ⟨"foo", "3"⟩]⟩).2.2.2.1
    ⟨"foobar", "1"⟩).2 ⟨by decide, by decide⟩

theorem filter_ne_setFirstMatching (key value : String) (l : List Item) :
    (setFirstMatching key value l).filter (fun it => it.key != key)
      = l.filter (fun it => it.key != key) := by
  induction l with
  | nil => rfl
  | cons x xs ih =>
    rw [setFirstMatching]
    by_cases hx : (x.key == key) = true
    · rw [if_pos hx]
      have h1 : (x.key != key) = false := by simp [bne, hx]
      rw [List.filter_cons, List.filter_cons, h1]
      simp
    · have hx' : (x.key == key) = false := by simpa using hx
      have h1 : (x.key != key) = true := by simp [bne, hx']
      rw [if_neg hx]
      rw [List.filter_cons, List.filter_cons, h1, ih]

/-- C10: the mutations of `modify_or_add_metadata_item`,
`add_metadata_item` and (when it does not raise) `remove_metadata_item`
leave every item whose key differs from the target key present,
unchanged, and in its original relative order: filtering the result on
"key differs" yields exactly the original filtered items. -/
theorem unrelated_keys_preserved (key value : String) (m : Metadata) :
    ((update_metadata_key key value m).items.getD []).filter
        (fun it => it.key != key)
      = (m.items.getD []).filter (fun it => it.key != key)
    ∧ ((add_metadata_key key value m).items.getD []).filter
        (fun it => it.key != key)
      = (m.items.getD []).filter (fun it => it.key != key)
    ∧ (∀ m' ret, remove_metadata_by_key key m = .ok (m', ret) →
        (m'.items.getD []).filter (fun it => it.key != key)
          = (m.items.getD []).filter (fun it => it.key != key)) := by
  have hkeyfalse : ((⟨key, value⟩ : Item).key != key) = false := by simp [bne]
  have hsingle : List.filter (fun (it : Item) => it.key != key) [⟨key, value⟩]
      = [] := by
    rw [List.filter_cons, hkeyfalse]
    simp
  refine ⟨?_, ?_, ?_⟩
  · by_cases hemp :
        ((m.items.getD []).filter (fun it => it.key == key)).isEmpty = true
    · simp only [update_metadata_key, hemp, if_true]
      rcases hI : m.items with _ | l
      · simp [hI, hsingle]
      · simp only [hI, Option.getD_some, List.filter_append, hsingle]
        simp
    · simp only [Bool.not_eq_true] at hemp
      simp only [update_metadata_key, hemp, Bool.false_eq_true, if_false,
        Option.getD_some]
      rw [List.filter_reverse, filter_ne_setFirstMatching,
        List.filter_reverse, List.reverse_reverse]
  · simp only [add_metadata_key, Option.getD_some, List.filter_append, hsingle]
    simp
  · intro m' ret h
    rcases hI : m.items.getD [] with _ | ⟨x, xs⟩
    · simp only [remove_metadata_by_key, hI, List.isEmpty_nil, if_true] at h
      injection h with h1
      have hm : m = m' := congrArg Prod.fst h1
      rw [← hm, hI]
    · simp only [remove_metadata_by_key, hI] at h
      split at h
      · rename_i hemp
        simp at hemp
      · split at h
        · cases h
        · split at h
          · injection h with h1
            have hm : m = m' := congrArg Prod.fst h1
            rw [← hm, hI]
          · injection h with h1
            have hm : ({ items := some ((x :: xs).filter
                (fun it => it.key != key)) } : Metadata) = m' :=
              congrArg Prod.fst h1
            rw [← hm]
            show ((x :: xs).filter (fun it => it.key != key)).filter
                (fun it => it.key != key)
              = (x :: xs).filter (fun it => it.key != key)
            rw [List.filter_filter]
            simp

/-- Witness for C10: removing key `"a"` from `[{a,1},{b,2}]` keeps the
`{b,2}` entry. -/
theorem unrelated_keys_preserved_witness :
    remove_metadata_by_key "a" ⟨some [⟨"a", "1"⟩, ⟨"b", "2"⟩]⟩
      = .ok (⟨some [⟨"b", "2"⟩]⟩, none)
    ∧ ((⟨some [⟨"b", "2"⟩]⟩ : Metadata).items.getD []).filter
        (fun it => it.key != "a")
      = (((⟨some [⟨"a", "1"⟩, ⟨"b", "2"⟩]⟩ : Metadata).items.getD []).filter
        (fun it => it.key != "a")) :=
  ⟨rfl, (unrelated_keys_preserved "a" "x"
      ⟨some [⟨"a", "1"⟩, ⟨"b", "2"⟩]⟩).2.2 ⟨some [⟨"b", "2"⟩]⟩ none rfl⟩

end CloudBridge
